import Mathlib

/-!
Verification development for the EDR dispatch dashboard (Rust sources
src/data.rs, src/state.rs, src/main.rs), shallowly embedded in Lean.

Modelling conventions:
* Rust `isize` clock values become `Int`; `usize` indices become `Nat`,
  with the `usize` subtraction/indexing panics made explicit as `Option`
  (`none` models a panic / process abort).
* Fallible operations (network fetches) are parameters of `Except` type.
* `f32` coordinates and the haversine `Train::dist_from` are floating
  point and are abstracted as an explicit distance parameter
  `dist : Station → ℚ`; `f32::total_cmp` (a total order on floats)
  becomes `compare` on `ℚ`.  The selection logic over the resulting
  distances is embedded verbatim.
* String fields are kept as `String`; `str::split(':')` and
  `str::parse::<isize>` are embedded as executable functions over the
  character list so that the kernel can evaluate them.
-/

namespace EDR

/-- One row of `data.rs`: `struct Server`. -/
structure Server where
  server_name : String
  server_code : String
  is_active : Bool
deriving DecidableEq

/-- `data.rs`: `struct Station`.  The source also carries `dispatched_by`
and `f32` latitude/longitude; those fields feed only the player-name
display and the (abstracted) haversine distance, so they are omitted
here.  `prefixCode` is the source's `prefix` field (renamed: `prefix` is
a Lean keyword). -/
structure Station where
  name : String
  prefixCode : String
deriving DecidableEq

/-- `data.rs`: `struct Train`.  `train_data` (f32 telemetry), `vehicles`
and the start/end station strings are unused by the modelled logic and
omitted; `loc` is the nearest-station label written once per refresh. -/
structure Train where
  train_name : String
  train_no : String
  t : String
  loc : Option String := none
deriving DecidableEq

/-- `data.rs`: `struct StopDescription` (one timetable row). -/
structure StopDescription where
  scheduled_arrival_hour : Option String
  scheduled_departure_hour : Option String
  station : String
  layover : Option String
  stop_type : Option String
  line : String
deriving DecidableEq

/-- `state.rs`: `enum EventType`. -/
inductive EventType where
  | Passing
  | Entering
  | Departing
deriving DecidableEq

/-- `state.rs`: `struct Event` (fields in source order). -/
structure Event where
  name : String
  time : Int
  planned_time : Int
  ty : EventType
  player : Bool
  prev : String
  next : String
deriving DecidableEq

/-- `state.rs`: `enum Step`. -/
inductive Step where
  | ServerSelection
  | StationSelection
  | EDR
deriving DecidableEq

/-- `state.rs`: `struct State`.  The `station_translation` map and the
`players` list feed only the (unmodelled) selection-screen rendering and
`get_player_name`; they are omitted.  `prefixOf` is the
`station_name_to_prefix` map, modelled as its lookup function
(`State::get_prefix`). -/
structure State where
  prefixOf : String → Option String
  servers : List Server
  server_index : Nat
  selected_server : String
  stations : List Station
  station_index : Nat
  selected_station : Option Station
  step : Step
  events : List Event

/-- The key codes `State::key_pressed` distinguishes (crossterm's
`KeyCode`; every other key is the wildcard arm). -/
inductive KeyCode where
  | enter
  | up
  | down
  | esc
  | other
deriving DecidableEq

/-! ### Clock-string parsing

`refresh_data` turns `"HH:MM"` into minutes with
`time.split(':')` and `time[i].parse::<isize>().unwrap()`.
`none` models the `unwrap`/indexing panic on malformed input. -/

/-- Digit-list accumulator for `str::parse::<isize>`. -/
def digitsToNat (acc : Nat) : List Char → Option Nat
  | [] => some acc
  | c :: cs =>
    if '0' ≤ c ∧ c ≤ '9' then digitsToNat (acc * 10 + (c.toNat - '0'.toNat)) cs
    else none

/-- `str::parse::<isize>`: optional sign, then one or more digits. -/
def parseIsize (s : String) : Option Int :=
  match s.data with
  | [] => none
  | '+' :: ds =>
    match ds with
    | [] => none
    | _ => (digitsToNat 0 ds).map Int.ofNat
  | '-' :: ds =>
    match ds with
    | [] => none
    | _ => (digitsToNat 0 ds).map (fun n => -(n : Int))
  | ds => (digitsToNat 0 ds).map Int.ofNat

/-- `str::split(sep)` over the character list. -/
def splitCharAux (sep : Char) : List Char → List Char → List (List Char)
  | [], acc => [acc.reverse]
  | c :: cs, acc =>
    if c = sep then acc.reverse :: splitCharAux sep cs []
    else splitCharAux sep cs (c :: acc)

/-- `str::split(sep)` producing strings. -/
def splitChar (sep : Char) (s : String) : List String :=
  (splitCharAux sep s.data []).map String.mk

/-- The closure `|time| { let time = time.split(':').collect(); time[0].parse()*60
+ time[1].parse() }` from `State::refresh_data`; `none` models the panic on a
string without `':'` or with non-numeric parts. -/
def parseHM (s : String) : Option Int :=
  match splitChar ':' s with
  | t0 :: t1 :: _ =>
    match parseIsize t0, parseIsize t1 with
    | some h, some m => some (h * 60 + m)
    | _, _ => none
  | _ => none

/-- `opt.as_ref().map_or(0, |time| …)` as used for arrival/departure/passing
times: an absent scheduled hour yields `0`, a present one is parsed (with
`none` propagating the parse panic). -/
def parseTimeOpt : Option String → Option Int
  | none => some 0
  | some s => parseHM s

/-! ### Event methods (`impl Event`, `impl PartialOrd for Event`) -/

/-- Rust `{:0>2}` formatting of one clock component. -/
def pad2 (n : Int) : String :=
  let s := toString n
  if s.length < 2 then String.mk (List.replicate (2 - s.length) '0') ++ s else s

/-- The `"{:0>2}:{:0>2}"` clock rendering of `Event::get_time`.  `Int.tdiv`
and `Int.tmod` are Lean's truncating pair matching Rust `isize` `/` and `%`. -/
def formatClock (t : Int) : String :=
  pad2 (Int.tdiv t 60) ++ ":" ++ pad2 (Int.tmod t 60)

/-- Rust `{:+}` formatting of the delay. -/
def fmtSigned (n : Int) : String :=
  if 0 ≤ n then "+" ++ toString n else toString n

/-- `Event::get_time`. -/
def Event.get_time (e : Event) : String :=
  if e.planned_time = e.time then formatClock e.time
  else formatClock e.time ++ " (" ++ fmtSigned (e.time - e.planned_time) ++ ")"

/-- `impl Ord for Event`: the body is `todo!()`, i.e. an unconditional
panic if ever invoked (`none` models that).  Note that `Vec::sort` never
calls it: `slice::sort` drives the comparator `T::lt`, which Rust
derives from the hand-written `PartialOrd` below. -/
def Event.cmp (_ _ : Event) : Option Ordering := none

/-- `impl PartialOrd for Event::partial_cmp` (source lines 69-77);
`isize::partial_cmp` is total, hence `some (compare …)`. -/
def Event.partial_cmp (a b : Event) : Option Ordering :=
  if a.planned_time ≠ 0 then some (compare a.time b.time)
  else if b.planned_time = 0 then some Ordering.eq
  else some Ordering.gt

/-- `PartialOrd::lt`'s default body, `matches!(self.partial_cmp(other),
Some(Less))`: the comparator actually used by `state.events.sort()`. -/
def Event.lt (a b : Event) : Bool :=
  match Event.partial_cmp a b with
  | some Ordering.lt => true
  | _ => false

/-- Stable insertion of one event, as a stable sort driven by `Event.lt`
places it: before the first element not strictly below it. -/
def insertEv (a : Event) : List Event → List Event
  | [] => [a]
  | b :: bs => if Event.lt b a then b :: insertEv a bs else a :: b :: bs

/-- `state.events.sort()` from `draw_edr` (main.rs line 110): Rust's
stable sort with `is_less := Event.lt`, modelled as stable insertion
sort (identical output for any strict-weak-order comparator). -/
def sortEvents : List Event → List Event
  | [] => []
  | a :: rest => insertEv a (sortEvents rest)

/-! ### Nearest-station selection (`State::refresh_data`, lines 159-167)

`stations.iter().map(|s| (s, train.dist_from(s))).reduce(…)`, the
haversine distance abstracted as `dist : Station → ℚ` and
`f32::total_cmp` as `compare`. -/

/-- The `reduce` combinator from `refresh_data`: keep the accumulator on
`Less` and on `Equal`, take the new candidate only on `Greater`. -/
def selNearest (a b : Station × ℚ) : Station × ℚ :=
  match compare a.2 b.2 with
  | Ordering.lt => a
  | Ordering.eq => a
  | Ordering.gt => b

/-- `Iterator::reduce`. -/
def reduceOpt (f : α → α → α) : List α → Option α
  | [] => none
  | x :: xs => some (xs.foldl f x)

/-- The whole nearest-station computation for one train. -/
def nearestStation (dist : Station → ℚ) (stations : List Station) :
    Option (Station × ℚ) :=
  reduceOpt selNearest (stations.map (fun s => (s, dist s)))

/-! ### Event synthesis and timetable alignment
(`State::refresh_data`, lines 180-290) -/

/-- The row predicate of both `position` closures: resolve the row's
station name through `State::get_prefix` and compare with `key`; an
unresolved row is a non-match. -/
def rowMatches (prefixOf : String → Option String) (key : String)
    (s : StopDescription) : Bool :=
  match prefixOf s.station with
  | some p => p = key
  | none => false

/-- The per-event shared fields: `format!("{} {}", train.train_name,
train.train_no)` and `train.t != "bot"`. -/
def trainLabel (train : Train) : String :=
  train.train_name ++ " " ++ train.train_no

/-- Lines 203-285: the branch on `stop.stop_type` that pushes the events
for one aligned train.  `none` models the `unwrap` panic on a malformed
scheduled-hour string. -/
def synthEvents (train : Train) (stop prev_stop next_stop : StopDescription) :
    Option (List Event) :=
  match stop.stop_type with
  | some stop_type =>
    if stop_type = "ph" then
      match parseTimeOpt stop.scheduled_arrival_hour,
            parseTimeOpt stop.scheduled_departure_hour with
      | some arrival, some departure =>
        some [
          { name := trainLabel train
            time := arrival
            planned_time := arrival
            ty := EventType.Entering
            player := train.t ≠ "bot"
            prev := prev_stop.station ++ "/L." ++ prev_stop.line
            next := "platform (" ++ toString (departure - arrival) ++ ")" },
          { name := trainLabel train
            time := departure
            planned_time := departure
            ty := EventType.Departing
            player := train.t ≠ "bot"
            prev := "Platform"
            next := next_stop.station ++ "/L." ++ stop.line } ]
      | _, _ => none
    else some []
  | none =>
    match parseTimeOpt stop.scheduled_arrival_hour with
    | some passing =>
      some [
        { name := trainLabel train
          time := passing
          planned_time := passing
          ty := EventType.Passing
          player := train.t ≠ "bot"
          prev := prev_stop.station ++ "/L." ++ prev_stop.line
          next := next_stop.station ++ "/L." ++ stop.line } ]
    | none => none

/-- Lines 180-290 for one train whose timetable has been fetched: align
`loc` (the nearest-station prefix) and the selected station's prefix in
the timetable and synthesize this train's events.  `some []` is "train
skipped, no event"; `none` models a panic: the
`selected_station.expect(…)` when no station is selected, the
out-of-bounds `timetable[station_pos + 1]` at the last row, the `usize`
underflow of `timetable[station_pos - 1]` at row 0, and malformed
scheduled hours. -/
def processTrain (prefixOf : String → Option String)
    (selected_station : Option Station) (loc : String) (train : Train)
    (timetable : List StopDescription) : Option (List Event) :=
  match timetable.findIdx? (rowMatches prefixOf loc) with
  | none => some []
  | some train_pos =>
    match selected_station with
    | none => none
    | some sel =>
      match timetable.findIdx? (rowMatches prefixOf sel.prefixCode) with
      | none => some []
      | some station_pos =>
        if train_pos ≤ station_pos then
          match timetable.get? station_pos with
          | none => none
          | some stop =>
            match timetable.get? (station_pos + 1) with
            | none => none
            | some next_stop =>
              if station_pos = 0 then none
              else
                match timetable.get? (station_pos - 1) with
                | none => none
                | some prev_stop => synthEvents train stop prev_stop next_stop
        else some []

/-- Outcome of one `refresh_data` call: `ok`, an `Err` propagated by `?`
(a transport/deserialization failure), or a panic. -/
inductive Outcome where
  | ok
  | netError
  | panicked
deriving DecidableEq

/-- The `for train in trains` loop of the `Step::EDR` arm.  Each train:
nearest station (skip the train when `reduce` yields `None`, i.e. no
stations), then the timetable fetch (an `Err` aborts the refresh with
the events accumulated so far), then alignment and synthesis. -/
def runTrains (prefixOf : String → Option String)
    (selected_station : Option Station) (stations : List Station)
    (dist : Train → Station → ℚ)
    (fetchTimetable : String → Except Unit (List StopDescription)) :
    List Train → List Event → List Event × Outcome
  | [], acc => (acc, Outcome.ok)
  | train :: rest, acc =>
    match nearestStation (dist train) stations with
    | none =>
      runTrains prefixOf selected_station stations dist fetchTimetable rest acc
    | some (ns, _) =>
      match fetchTimetable train.train_no with
      | Except.error _ => (acc, Outcome.netError)
      | Except.ok timetable =>
        match processTrain prefixOf selected_station ns.prefixCode train
            timetable with
        | none => (acc, Outcome.panicked)
        | some evs =>
          runTrains prefixOf selected_station stations dist fetchTimetable rest
            (acc ++ evs)

/-- The `Step::EDR` arm of `State::refresh_data` (lines 148-291): clear
the events, fetch the train list (an `Err` aborts with the events
already cleared), then run the per-train loop.  The network fetches are
parameters. -/
def refresh_data_EDR (st : State) (fetchTrains : Except Unit (List Train))
    (fetchTimetable : String → Except Unit (List StopDescription))
    (dist : Train → Station → ℚ) : State × Outcome :=
  match fetchTrains with
  | Except.error _ => ({ st with events := [] }, Outcome.netError)
  | Except.ok trains =>
    let r := runTrains st.prefixOf st.selected_station st.stations dist
      fetchTimetable trains []
    ({ st with events := r.1 }, r.2)

/-! ### Navigation state machine (`State::key_pressed`, `select`,
`cursor`; lines 307-367).  Every transition returns the flag pair
`(data refresh required, redraw required)` as destructured by `main`:
`(need_refresh_data, need_refresh_tui) = state.key_pressed(key.code)`.
`none` models the indexing/underflow panics on empty lists. -/

/-- `State::select`. -/
def select (st : State) : Option (State × (Bool × Bool)) :=
  match st.step with
  | Step.ServerSelection =>
    match st.servers.get? st.server_index with
    | none => none
    | some srv =>
      some ({ st with
        selected_server := srv.server_code
        step := Step.StationSelection }, (true, true))
  | Step.StationSelection =>
    match st.stations.get? st.station_index with
    | none => none
    | some stn =>
      some ({ st with
        selected_station := some stn
        step := Step.EDR }, (true, true))
  | Step.EDR => some (st, (false, false))

/-- `State::cursor`.  `none` models the debug-build `usize` underflow of
`len - 1` on an empty list. -/
def cursor (st : State) (i : Int) : Option (State × (Bool × Bool)) :=
  match st.step with
  | Step.ServerSelection =>
    let res : Int := (st.server_index : Int) + i
    if res < 0 then
      if st.servers.length = 0 then none
      else some ({ st with server_index := st.servers.length - 1 },
        (false, true))
    else if (st.servers.length : Int) ≤ res then
      some ({ st with server_index := 0 }, (false, true))
    else some ({ st with server_index := res.toNat }, (false, true))
  | Step.StationSelection =>
    let res : Int := (st.station_index : Int) + i
    if res < 0 then
      if st.stations.length = 0 then none
      else some ({ st with station_index := st.stations.length - 1 },
        (false, true))
    else if (st.stations.length : Int) ≤ res then
      some ({ st with station_index := 0 }, (false, true))
    else some ({ st with station_index := res.toNat }, (false, true))
  | Step.EDR => some (st, (false, false))

/-- `State::key_pressed`. -/
def key_pressed (st : State) (key_code : KeyCode) :
    Option (State × (Bool × Bool)) :=
  match key_code with
  | KeyCode.enter => select st
  | KeyCode.up => cursor st (-1)
  | KeyCode.down => cursor st 1
  | KeyCode.esc =>
    match st.step with
    | Step.ServerSelection => some (st, (false, false))
    | Step.StationSelection =>
      some ({ st with step := Step.ServerSelection }, (true, false))
    | Step.EDR =>
      some ({ st with step := Step.StationSelection }, (true, false))
  | KeyCode.other => some (st, (false, false))

/-! ### Concrete instances used by witnesses and counterexamples -/

/-- A small name-to-prefix resolver (three stations). -/
def pfxW : String → Option String := fun s =>
  if s = "Alpha" then some "A"
  else if s = "Beta" then some "B"
  else if s = "Gamma" then some "C"
  else none

/-- A bot train. -/
def trW : Train := { train_name := "ROJ", train_no := "446004", t := "bot" }

/-- Timetable row for station Alpha (pass-through). -/
def rowA : StopDescription :=
  { scheduled_arrival_hour := some "10:00"
    scheduled_departure_hour := some "10:01"
    station := "Alpha"
    layover := none
    stop_type := none
    line := "1" }

/-- Timetable row for station Beta as a platform stop (stop type "ph"). -/
def rowB : StopDescription :=
  { scheduled_arrival_hour := some "10:05"
    scheduled_departure_hour := some "10:08"
    station := "Beta"
    layover := none
    stop_type := some "ph"
    line := "100" }

/-- The Beta row as a pass-through point (no stop type). -/
def rowBpass : StopDescription := { rowB with stop_type := none }

/-- The Beta row with a stop type that is present but not "ph". -/
def rowBxx : StopDescription := { rowB with stop_type := some "xx" }

/-- Timetable row for station Gamma (pass-through). -/
def rowC : StopDescription :=
  { scheduled_arrival_hour := some "10:20"
    scheduled_departure_hour := none
    station := "Gamma"
    layover := none
    stop_type := none
    line := "200" }

/-- Station Alpha. -/
def stAW : Station := { name := "Alpha", prefixCode := "A" }

/-- Station Beta. -/
def stBW : Station := { name := "Beta", prefixCode := "B" }

/-- Two servers for the navigation states. -/
def srvW1 : Server :=
  { server_name := "International 1", server_code := "int1", is_active := true }

/-- Second server. -/
def srvW2 : Server :=
  { server_name := "Deutsch 1", server_code := "de1", is_active := false }

/-- An event with planned time 0 (absent scheduled hour). -/
def eZeroW : Event :=
  { name := "W 1", time := 0, planned_time := 0, ty := EventType.Passing
    player := false, prev := "", next := "" }

/-- An event at minute 600. -/
def eLateW : Event :=
  { name := "X 2", time := 600, planned_time := 600, ty := EventType.Passing
    player := false, prev := "", next := "" }

/-- An event at minute 7 with nonzero planned time. -/
def e7W : Event :=
  { name := "Y 3", time := 7, planned_time := 7, ty := EventType.Passing
    player := false, prev := "", next := "" }

/-- An event at minute 3 with nonzero planned time. -/
def e3W : Event :=
  { name := "Z 4", time := 3, planned_time := 3, ty := EventType.Passing
    player := false, prev := "", next := "" }

/-- The Entering event synthesized for `trW` at `rowB` between `rowA` and
`rowC`. -/
def evInW : Event :=
  { name := "ROJ 446004", time := 605, planned_time := 605
    ty := EventType.Entering, player := false
    prev := "Alpha/L.1", next := "platform (3)" }

/-- The Departing event synthesized for `trW` at `rowB` between `rowA` and
`rowC`. -/
def evOutW : Event :=
  { name := "ROJ 446004", time := 608, planned_time := 608
    ty := EventType.Departing, player := false
    prev := "Platform", next := "Gamma/L.100" }

/-- The Passing event synthesized for `trW` at `rowBpass`. -/
def evPassW : Event :=
  { name := "ROJ 446004", time := 605, planned_time := 605
    ty := EventType.Passing, player := false
    prev := "Alpha/L.1", next := "Gamma/L.100" }

/-- A constant station-distance function (every candidate ties). -/
def distOneW : Station → ℚ := fun _ => 1

/-- A constant train-to-station distance function. -/
def distTSW : Train → Station → ℚ := fun _ _ => 1

/-- A timetable fetch that always succeeds with the three-row timetable. -/
def fTTW : String → Except Unit (List StopDescription) :=
  fun _ => Except.ok [rowA, rowBpass, rowC]

/-- A dispatch-view state with one previously-displayed event. -/
def stEDRW : State :=
  { prefixOf := pfxW
    servers := [srvW1, srvW2]
    server_index := 0
    selected_server := "int1"
    stations := [stAW]
    station_index := 0
    selected_station := some stBW
    step := Step.EDR
    events := [eLateW] }

/-- A server-selection state with two servers and two stations. -/
def stNavW : State :=
  { prefixOf := pfxW
    servers := [srvW1, srvW2]
    server_index := 0
    selected_server := ""
    stations := [stAW, stBW]
    station_index := 1
    selected_station := none
    step := Step.ServerSelection
    events := [] }

/-- The same state on the station-selection screen. -/
def stStationW : State := { stNavW with step := Step.StationSelection }

/-! ### Claims about the refresh cycle's error behavior -/

/-- C2 (amended): a failing train-list fetch during a dispatch-view refresh
aborts the refresh and surfaces the error, leaving every other state field
intact, but the Event collection does not keep its prior contents: it was
cleared at the start of the refresh, so the failed refresh leaves it empty. -/
theorem refresh_error_leaves_events_cleared (st : State)
    (fetchTimetable : String → Except Unit (List StopDescription))
    (dist : Train → Station → ℚ) :
    refresh_data_EDR st (Except.error ()) fetchTimetable dist =
      ({ st with events := [] }, Outcome.netError) := rfl

/-- C2 counterexample: a dispatch-view state holding one displayed event,
refreshed while the train-list fetch fails, ends with an empty Event
collection — not with the collection "exactly as it was before the refresh
began", which is what the claim asserts. -/
theorem refresh_error_clears_events_cx :
    (refresh_data_EDR stEDRW (Except.error ()) fTTW distTSW).1.events = [] ∧
      stEDRW.events ≠ [] := by
  exact ⟨rfl, by decide⟩

/-! ### Claims about the navigation state machine -/

/-- C5 (amended): the Esc transition from the dispatch view goes back to
station selection and from station selection back to server selection, in
both cases returning the flag pair (data refresh := true, redraw := false):
a data refresh, not a redraw, is requested (the redraw then happens in the
driving loop only as a consequence of the completed refresh); Esc on the
server-selection screen is a no-op returning (false, false). -/
theorem back_transitions_flags (st : State) :
    key_pressed { st with step := Step.EDR } KeyCode.esc =
      some ({ st with step := Step.StationSelection }, (true, false)) ∧
    key_pressed { st with step := Step.StationSelection } KeyCode.esc =
      some ({ st with step := Step.ServerSelection }, (true, false)) ∧
    key_pressed { st with step := Step.ServerSelection } KeyCode.esc =
      some ({ st with step := Step.ServerSelection }, (false, false)) :=
  ⟨rfl, rfl, rfl⟩

/-- C5 counterexample: on the station-selection screen, Esc returns the flag
pair (true, false) — data refresh requested, redraw not requested — while
the claim asserts the pair requests a redraw but no data refresh, i.e.
(false, true). -/
theorem esc_flags_cx :
    (key_pressed stStationW KeyCode.esc).map (fun r => r.2) =
        some (true, false) ∧
      ((true, false) : Bool × Bool) ≠ ((false, true) : Bool × Bool) :=
  ⟨rfl, by decide⟩

/-! ### Counterexamples about event synthesis -/

/-- C1 counterexample: aligning to the last timetable index does not clamp
`next` to the target row itself; the lookup `timetable[target_index + 1]`
is out of bounds and the synthesis panics (modelled as `none`).  Here the
target station Beta is the last of two rows and the anchor Alpha is row 0. -/
theorem synthesis_last_index_panics :
    processTrain pfxW (some stBW) "A" trW [rowA, rowB] = none := by decide

/-- C3 counterexample: a target row whose stop type is present but not
"ph" (here "xx") is not a platform stop, yet synthesis produces zero
events, not the single Passing event the claim asserts for every
non-platform-stop row. -/
theorem other_stop_type_yields_no_events :
    processTrain pfxW (some stBW) "A" trW [rowA, rowBxx, rowC] = some [] ∧
      rowBxx.stop_type ≠ some "ph" := by
  exact ⟨by decide, by decide⟩

/-- C4 counterexample: sorting the Event collection does not order it by
effective time.  An event with planned time 0 compares "not less" in both
directions against every other event, so the pair stays in insertion order:
the event at minute 600 is displayed before the event at minute 0. -/
theorem sort_zero_planned_cx :
    sortEvents [eLateW, eZeroW] = [eLateW, eZeroW] ∧
      eZeroW.time < eLateW.time := by decide

/-- C8 counterexample: the synthesized Departing event's previous label is
the literal string "Platform" (not a platform/track combination, not the
empty string — `StopDescription` carries no platform or track field at
all), and its next label is built from the *current* stop's line ("100"),
not the next stop's line ("200"). -/
theorem departing_labels_cx :
    synthEvents trW rowB rowA rowC = some [evInW, evOutW] ∧
      evOutW.prev = "Platform" ∧ "Platform" ≠ "" ∧
      evOutW.next = "Gamma/L.100" ∧ rowC.line = "200" ∧
      "Gamma/L.100" ≠ "Gamma/L." ++ rowC.line := by decide

/-! ### Amended synthesis claims -/

/-- C1 (amended): event synthesis does not clamp the neighbor lookups.
Whenever alignment succeeds with `train_pos ≤ station_pos` and the target
index is a boundary row (index 0 or the last index), synthesis panics
(modelled as `none`): `timetable[station_pos - 1]` underflows at row 0 and
`timetable[station_pos + 1]` is out of bounds at the last row. -/
theorem synthesis_boundary_not_clamped (prefixOf : String → Option String)
    (sel : Station) (loc : String) (train : Train)
    (timetable : List StopDescription) (train_pos station_pos : Nat)
    (h1 : timetable.findIdx? (rowMatches prefixOf loc) = some train_pos)
    (h2 : timetable.findIdx? (rowMatches prefixOf sel.prefixCode) =
      some station_pos)
    (hle : train_pos ≤ station_pos)
    (hb : station_pos = 0 ∨ station_pos + 1 = timetable.length) :
    processTrain prefixOf (some sel) loc train timetable = none := by
  simp only [processTrain, h1, h2, if_pos hle]
  rcases hb with hb | hb
  · subst hb
    cases hget : timetable.get? 0 with
    | none => simp [hget]
    | some stop =>
      cases hget1 : timetable.get? 1 with
      | none => simp [hget, hget1]
      | some ns => simp [hget, hget1]
  · have hnone : timetable.get? (station_pos + 1) = none :=
      List.get?_eq_none.mpr (le_of_eq hb.symm)
    rw [List.get?_eq_getElem?] at hnone
    cases hget : timetable.get? station_pos with
    | none => simp [hget]
    | some stop => simp [hget, hnone]

/-- C1 witness: the amended theorem applied to a one-row timetable whose
single row is both the anchor and the target (target index 0): the
synthesis panics instead of degrading to self-reference. -/
theorem synthesis_boundary_not_clamped_witness :
    processTrain pfxW (some stAW) "A" trW [rowA] = none :=
  synthesis_boundary_not_clamped pfxW stAW "A" trW [rowA] 0 0 (by decide)
    (by decide) (Nat.le_refl 0) (Or.inl rfl)

/-- C3 (amended): with parseable scheduled hours, a target row whose stop
type is "ph" (a platform stop) yields exactly two events, one Entering and
one Departing; a row with no stop type (a pass-through point) yields
exactly one Passing event; a row whose stop type is present but different
from "ph" yields no event at all. -/
theorem synthEvents_event_counts (train : Train)
    (stop prev_stop next_stop : StopDescription)
    (harr : (parseTimeOpt stop.scheduled_arrival_hour).isSome)
    (hdep : (parseTimeOpt stop.scheduled_departure_hour).isSome) :
    (stop.stop_type = some "ph" →
      (synthEvents train stop prev_stop next_stop).map (List.map Event.ty) =
        some [EventType.Entering, EventType.Departing]) ∧
    (stop.stop_type = none →
      (synthEvents train stop prev_stop next_stop).map (List.map Event.ty) =
        some [EventType.Passing]) ∧
    (∀ s : String, stop.stop_type = some s → s ≠ "ph" →
      synthEvents train stop prev_stop next_stop = some []) := by
  obtain ⟨a, ha⟩ := Option.isSome_iff_exists.mp harr
  obtain ⟨d, hd⟩ := Option.isSome_iff_exists.mp hdep
  refine ⟨fun hty => ?_, fun hty => ?_, fun s hty hs => ?_⟩
  · simp [synthEvents, hty, ha, hd]
  · simp [synthEvents, hty, ha]
  · simp [synthEvents, hty, hs]

/-- C3 witness: the amended count theorem applied to the concrete platform
stop `rowB` and to the concrete pass-through row `rowBpass`. -/
theorem synthEvents_event_counts_witness :
    (synthEvents trW rowB rowA rowC).map (List.map Event.ty) =
        some [EventType.Entering, EventType.Departing] ∧
      (synthEvents trW rowBpass rowA rowC).map (List.map Event.ty) =
        some [EventType.Passing] :=
  ⟨(synthEvents_event_counts trW rowB rowA rowC (by decide) (by decide)).1
      rfl,
    (synthEvents_event_counts trW rowBpass rowA rowC (by decide)
      (by decide)).2.1 rfl⟩

/-- C7: when alignment finds the anchor strictly past the target
(`station_pos < train_pos`), no event is produced for that train this
cycle: `processTrain` returns the empty event list. -/
theorem no_events_when_anchor_past_target (prefixOf : String → Option String)
    (sel : Station) (loc : String) (train : Train)
    (timetable : List StopDescription) (train_pos station_pos : Nat)
    (h1 : timetable.findIdx? (rowMatches prefixOf loc) = some train_pos)
    (h2 : timetable.findIdx? (rowMatches prefixOf sel.prefixCode) =
      some station_pos)
    (hgt : station_pos < train_pos) :
    processTrain prefixOf (some sel) loc train timetable = some [] := by
  simp only [processTrain, h1, h2]
  rw [if_neg (by omega)]

/-- C7 witness: anchor Gamma (row 2) lies past the target Alpha (row 0),
so the train contributes no event. -/
theorem no_events_when_anchor_past_target_witness :
    processTrain pfxW (some stAW) "C" trW [rowA, rowBpass, rowC] = some [] :=
  no_events_when_anchor_past_target pfxW stAW "C" trW [rowA, rowBpass, rowC]
    2 0 (by decide) (by decide) (by decide)

/-- C8 (amended): for a platform stop with parseable hours, the Departing
event's time and planned time both equal the parsed scheduled departure
(there is no actual-departure field in the timetable row at all), its
previous label is the literal string "Platform", and its next label is
built as next station "/L." followed by the *current* stop's line. -/
theorem departing_event_shape (train : Train)
    (stop prev_stop next_stop : StopDescription) (a d : Int)
    (hty : stop.stop_type = some "ph")
    (ha : parseTimeOpt stop.scheduled_arrival_hour = some a)
    (hd : parseTimeOpt stop.scheduled_departure_hour = some d) :
    synthEvents train stop prev_stop next_stop = some [
      { name := trainLabel train
        time := a
        planned_time := a
        ty := EventType.Entering
        player := train.t ≠ "bot"
        prev := prev_stop.station ++ "/L." ++ prev_stop.line
        next := "platform (" ++ toString (d - a) ++ ")" },
      { name := trainLabel train
        time := d
        planned_time := d
        ty := EventType.Departing
        player := train.t ≠ "bot"
        prev := "Platform"
        next := next_stop.station ++ "/L." ++ stop.line } ] := by
  simp [synthEvents, hty, ha, hd]

/-- C8 witness: the amended shape theorem applied to the concrete platform
stop `rowB` (scheduled departure 10:08 = minute 608, current line "100"). -/
theorem departing_event_shape_witness :
    synthEvents trW rowB rowA rowC = some [evInW, evOutW] := by
  have h := departing_event_shape trW rowB rowA rowC 605 608 rfl (by decide)
    (by decide)
  rw [h]; decide

/-! ### The display sort -/

/-- With a nonzero planned time on the left, the comparator driving the
sort is exactly "strictly earlier time". -/
theorem eventLt_iff (a b : Event) (ha : a.planned_time ≠ 0) :
    Event.lt a b = true ↔ a.time < b.time := by
  unfold Event.lt Event.partial_cmp
  rw [if_pos ha]
  rcases lt_trichotomy a.time b.time with h | h | h
  · rw [compare_lt_iff_lt.mpr h]
    simpa using h
  · rw [compare_eq_iff_eq.mpr h]
    simp [h]
  · rw [compare_gt_iff_gt.mpr h]
    simp
    omega

/-- With planned time 0 on the left, the comparator never says "less":
such an event is never moved up by the sort. -/
theorem eventLt_false (a b : Event) (ha : a.planned_time = 0) :
    Event.lt a b = false := by
  unfold Event.lt Event.partial_cmp
  rw [if_neg (by simp [ha])]
  split_ifs <;> rfl

/-- Insertion permutes. -/
theorem insertEv_perm (a : Event) (l : List Event) :
    (insertEv a l).Perm (a :: l) := by
  induction l with
  | nil => exact List.Perm.refl _
  | cons b bs ih =>
    unfold insertEv
    split_ifs with h
    · exact (ih.cons b).trans (List.Perm.swap a b bs)
    · exact List.Perm.refl _

/-- Membership through insertion. -/
theorem mem_insertEv {x a : Event} {l : List Event} :
    x ∈ insertEv a l ↔ x = a ∨ x ∈ l := by
  rw [(insertEv_perm a l).mem_iff]
  simp

/-- Insertion preserves sortedness by time when every planned time is
nonzero. -/
theorem insertEv_pairwise (a : Event) (l : List Event)
    (hpa : a.planned_time ≠ 0) (hpl : ∀ e ∈ l, e.planned_time ≠ 0)
    (hs : l.Pairwise (fun x y => x.time ≤ y.time)) :
    (insertEv a l).Pairwise (fun x y => x.time ≤ y.time) := by
  induction l with
  | nil => simp [insertEv]
  | cons b bs ih =>
    rw [List.pairwise_cons] at hs
    obtain ⟨hb, hbs⟩ := hs
    unfold insertEv
    split_ifs with h
    · have hblt : b.time < a.time :=
        (eventLt_iff b a (hpl b (List.mem_cons_self b bs))).mp h
      rw [List.pairwise_cons]
      constructor
      · intro x hx
        rcases mem_insertEv.mp hx with rfl | hx
        · exact le_of_lt hblt
        · exact hb x hx
      · exact ih (fun e he => hpl e (List.mem_cons_of_mem b he)) hbs
    · have hnb : ¬ b.time < a.time := fun hc =>
        h ((eventLt_iff b a (hpl b (List.mem_cons_self b bs))).mpr hc)
      have hble : a.time ≤ b.time := by omega
      rw [List.pairwise_cons]
      refine ⟨fun x hx => ?_, List.pairwise_cons.mpr ⟨hb, hbs⟩⟩
      rcases List.mem_cons.mp hx with rfl | hx
      · exact hble
      · exact le_trans hble (hb x hx)

/-- C4 (amended): sorting the Event collection never fails (the `todo!()`
body of `Ord::cmp` is dead code, because `slice::sort` drives
`PartialOrd::lt`), and when every event has a nonzero planned time — thus
an effective time equal to its `time` field — the result is ordered by
effective time and is a permutation of the input.  Events with planned
time 0 compare "not less" in both directions and therefore simply keep
their insertion positions (see the counterexample). -/
theorem sortEvents_sorted_when_planned_nonzero (l : List Event)
    (h : ∀ e ∈ l, e.planned_time ≠ 0) :
    (sortEvents l).Pairwise (fun a b => a.time ≤ b.time) ∧
      (sortEvents l).Perm l := by
  induction l with
  | nil => exact ⟨List.Pairwise.nil, List.Perm.refl _⟩
  | cons a rest ih =>
    have hrest := ih (fun e he => h e (List.mem_cons_of_mem a he))
    have hperm : (sortEvents (a :: rest)).Perm (a :: rest) :=
      (insertEv_perm a _).trans (hrest.2.cons a)
    refine ⟨?_, hperm⟩
    show (insertEv a (sortEvents rest)).Pairwise _
    apply insertEv_pairwise
    · exact h a (List.mem_cons_self a rest)
    · exact fun e he => h e (List.mem_cons_of_mem a (hrest.2.mem_iff.mp he))
    · exact hrest.1

/-- C4 witness: two events with nonzero planned times are sorted by
effective time (3 before 7) and the sort is a permutation. -/
theorem sortEvents_sorted_when_planned_nonzero_witness :
    sortEvents [e7W, e3W] = [e3W, e7W] ∧
      (sortEvents [e7W, e3W]).Perm [e7W, e3W] :=
  ⟨by decide,
    (sortEvents_sorted_when_planned_nonzero [e7W, e3W] (by decide)).2⟩

/-! ### Cursor wraparound -/

/-- Wrapping below zero: a decrement from index 0 lands on the Euclidean
remainder n - 1. -/
theorem wrap_low (si n : Nat) (h1 : (si : Int) + -1 < 0) (h0 : 0 < n) :
    (((si : Int) + -1) % (n : Int)).toNat = n - 1 := by
  have hsi : si = 0 := by omega
  subst hsi
  have h := Int.add_mul_emod_self_left (-1) (n : Int) 1
  rw [mul_one] at h
  have h2 : ((-1 : Int) + (n : Int)) % (n : Int) = (-1 : Int) + (n : Int) :=
    Int.emod_eq_of_lt (by omega) (by omega)
  have h3 : (((0 : Nat) : Int) + -1) = -1 := by norm_num
  rw [h3]
  omega

/-- Wrapping above the top: an increment from index n - 1 lands on 0. -/
theorem wrap_high (si n : Nat) (h2 : (n : Int) ≤ (si : Int) + 1)
    (hidx : si < n) : (((si : Int) + 1) % (n : Int)).toNat = 0 := by
  have h : (si : Int) + 1 = (n : Int) := by omega
  rw [h, Int.emod_self]
  rfl

/-- No wrap needed: an in-range result is its own remainder. -/
theorem wrap_mid (si n : Nat) (d : Int) (hge : 0 ≤ (si : Int) + d)
    (hlt : (si : Int) + d < (n : Int)) :
    (((si : Int) + d) % (n : Int)).toNat = ((si : Int) + d).toNat := by
  rw [Int.emod_eq_of_lt hge hlt]

/-- C9: on a non-empty active list with an in-range selection index, a
cursor step of plus or minus one moves the index by that delta modulo the
list length: in particular `cursor (-1)` at index 0 yields N-1 and
`cursor (+1)` at index N-1 yields 0, and interior positions move by the
delta; the flags are always (no data refresh, redraw). -/
theorem cursor_wraparound (st : State) (delta : Int)
    (hdelta : delta = -1 ∨ delta = 1) :
    (st.step = Step.ServerSelection → 0 < st.servers.length →
      st.server_index < st.servers.length →
      cursor st delta = some ({ st with server_index :=
          (((st.server_index : Int) + delta) %
            (st.servers.length : Int)).toNat }, (false, true))) ∧
    (st.step = Step.StationSelection → 0 < st.stations.length →
      st.station_index < st.stations.length →
      cursor st delta = some ({ st with station_index :=
          (((st.station_index : Int) + delta) %
            (st.stations.length : Int)).toNat }, (false, true))) := by
  obtain ⟨pf, servers, si, ss, stations, ti, sel, stp, ev⟩ := st
  constructor
  · intro hstep hlen hidx
    dsimp only at hstep hlen hidx ⊢
    subst hstep
    unfold cursor
    dsimp only
    rcases hdelta with h | h <;> subst h
    · split_ifs with h1 h2
      · exact absurd h2 (by omega)
      · rw [wrap_low si servers.length h1 (by omega)]
      · exact absurd hidx (by omega)
      · rw [wrap_mid si servers.length (-1) (by omega) (by omega)]
    · split_ifs with h1 h2 h3
      · exact absurd h1 (by omega)
      · exact absurd h1 (by omega)
      · rw [wrap_high si servers.length h3 hidx]
      · rw [wrap_mid si servers.length 1 (by omega) (by omega)]
  · intro hstep hlen hidx
    dsimp only at hstep hlen hidx ⊢
    subst hstep
    unfold cursor
    dsimp only
    rcases hdelta with h | h <;> subst h
    · split_ifs with h1 h2
      · exact absurd h2 (by omega)
      · rw [wrap_low ti stations.length h1 (by omega)]
      · exact absurd hidx (by omega)
      · rw [wrap_mid ti stations.length (-1) (by omega) (by omega)]
    · split_ifs with h1 h2 h3
      · exact absurd h1 (by omega)
      · exact absurd h1 (by omega)
      · rw [wrap_high ti stations.length h3 hidx]
      · rw [wrap_mid ti stations.length 1 (by omega) (by omega)]

/-- C9 witness: in the two-server state at index 0, the up key's
`cursor (-1)` wraps to index 1 = N-1. -/
theorem cursor_wraparound_witness :
    cursor stNavW (-1) =
      some ({ stNavW with server_index := 1 }, (false, true)) := by
  have h := (cursor_wraparound stNavW (-1) (Or.inl rfl)).1 rfl (by decide)
    (by decide)
  have hidx : (((stNavW.server_index : Int) + -1) %
      (stNavW.servers.length : Int)).toNat = 1 := by decide
  rw [hidx] at h
  exact h

/-! ### Times of synthesized events -/

/-- Every event pushed by the synthesis branch carries the same value in
`time` and `planned_time`. -/
theorem synthEvents_time_eq_planned {train : Train}
    {stop prev_stop next_stop : StopDescription} {evs : List Event}
    (h : synthEvents train stop prev_stop next_stop = some evs) :
    ∀ e ∈ evs, e.time = e.planned_time := by
  unfold synthEvents at h
  repeat' (split at h)
  all_goals
    first
      | (injection h with h
         subst h
         intro e he
         simp only [List.mem_cons, List.mem_singleton,
           List.not_mem_nil, or_false] at he
         rcases he with rfl | rfl <;> rfl)
      | (injection h with h
         subst h
         intro e he
         exact absurd he (List.not_mem_nil e))
      | simp at h

/-- Every event produced for one aligned train carries the same `time`
and `planned_time`. -/
theorem processTrain_time_eq_planned {prefixOf : String → Option String}
    {selected : Option Station} {loc : String} {train : Train}
    {timetable : List StopDescription} {evs : List Event}
    (h : processTrain prefixOf selected loc train timetable = some evs) :
    ∀ e ∈ evs, e.time = e.planned_time := by
  unfold processTrain at h
  repeat' (split at h)
  all_goals
    first
      | exact synthEvents_time_eq_planned h
      | (injection h with h
         subst h
         intro e he
         exact absurd he (List.not_mem_nil e))
      | simp at h

/-- The per-train loop only appends events with equal `time` and
`planned_time` to its accumulator. -/
theorem runTrains_time_eq_planned (prefixOf : String → Option String)
    (selected : Option Station) (stations : List Station)
    (dist : Train → Station → ℚ)
    (fTT : String → Except Unit (List StopDescription)) :
    ∀ (trains : List Train) (acc : List Event),
      (∀ e ∈ acc, e.time = e.planned_time) →
      ∀ e ∈ (runTrains prefixOf selected stations dist fTT trains acc).1,
        e.time = e.planned_time := by
  intro trains
  induction trains with
  | nil =>
    intro acc hacc e he
    simp only [runTrains] at he
    exact hacc e he
  | cons t ts ih =>
    intro acc hacc e he
    cases hns : nearestStation (dist t) stations with
    | none =>
      simp only [runTrains, hns] at he
      exact ih acc hacc e he
    | some p =>
      obtain ⟨ns, dd⟩ := p
      cases hft : fTT t.train_no with
      | error u =>
        simp only [runTrains, hns, hft] at he
        exact hacc e he
      | ok timetable =>
        cases hpt : processTrain prefixOf selected ns.prefixCode t
            timetable with
        | none =>
          simp only [runTrains, hns, hft, hpt] at he
          exact hacc e he
        | some evs =>
          simp only [runTrains, hns, hft, hpt] at he
          refine ih (acc ++ evs) ?_ e he
          intro x hx
          rcases List.mem_append.mp hx with hx | hx
          · exact hacc x hx
          · exact processTrain_time_eq_planned hpt x hx

/-- C10: every event a dispatch-view refresh places in the Event
collection has `time = planned_time` (both are the parsed scheduled value
or both 0 when the scheduled hour is absent), so `Event::get_time` always
takes the plain branch: the delay-annotated rendering is unreachable for
synthesized events. -/
theorem events_time_eq_planned (st : State)
    (fetchTrains : Except Unit (List Train))
    (fetchTimetable : String → Except Unit (List StopDescription))
    (dist : Train → Station → ℚ) (st' : State) (out : Outcome)
    (h : refresh_data_EDR st fetchTrains fetchTimetable dist = (st', out))
    (e : Event) (he : e ∈ st'.events) :
    e.time = e.planned_time ∧ Event.get_time e = formatClock e.time := by
  have hept : e.time = e.planned_time := by
    cases fetchTrains with
    | error u =>
      simp only [refresh_data_EDR] at h
      injection h with h1 h2
      subst h1
      simp at he
    | ok trains =>
      simp only [refresh_data_EDR] at h
      injection h with h1 h2
      subst h1
      refine runTrains_time_eq_planned st.prefixOf st.selected_station
        st.stations dist fetchTimetable trains [] ?_ e ?_
      · intro x hx
        exact absurd hx (List.not_mem_nil x)
      · exact he
  refine ⟨hept, ?_⟩
  unfold Event.get_time
  rw [if_pos hept.symm]

/-- C10 witness: a concrete refresh over one train and the three-row
timetable synthesizes the Passing event `evPassW`, whose rendered time
carries no delay annotation. -/
theorem events_time_eq_planned_witness :
    evPassW.time = evPassW.planned_time ∧
      Event.get_time evPassW = formatClock evPassW.time := by
  have hr : refresh_data_EDR stEDRW (Except.ok [trW]) fTTW distTSW =
      ({ stEDRW with events := [evPassW] }, Outcome.ok) := by rfl
  exact events_time_eq_planned stEDRW (Except.ok [trW]) fTTW distTSW _ _ hr
    evPassW (List.mem_singleton_self evPassW)

/-! ### Nearest-station selection: first wins -/

/-- The reduce combinator keeps the accumulator exactly when its distance
is less than or equal to the candidate's. -/
theorem selNearest_eq (p q : Station × ℚ) :
    selNearest p q = if p.2 ≤ q.2 then p else q := by
  unfold selNearest
  rcases lt_trichotomy p.2 q.2 with h | h | h
  · rw [compare_lt_iff_lt.mpr h, if_pos h.le]
  · rw [compare_eq_iff_eq.mpr h, if_pos h.le]
  · rw [compare_gt_iff_gt.mpr h, if_neg (not_le.mpr h)]

/-- The left fold of the reduce combinator returns either the seed (when
the seed already has a minimal distance) or the first strict improvement:
an element of minimal distance such that every earlier element is
strictly farther. -/
theorem foldl_selNearest_spec (ps : List (Station × ℚ)) (p : Station × ℚ) :
    (ps.foldl selNearest p = p ∧ ∀ q ∈ ps, p.2 ≤ q.2) ∨
    (∃ i, ∃ hi : i < ps.length,
      ps.foldl selNearest p = ps[i] ∧ ps[i].2 < p.2 ∧
      (∀ j, ∀ hj : j < ps.length, j < i → ps[i].2 < ps[j].2) ∧
      (∀ q ∈ ps, ps[i].2 ≤ q.2)) := by
  induction ps generalizing p with
  | nil =>
    left
    exact ⟨rfl, by simp⟩
  | cons q qs ih =>
    rw [List.foldl_cons, selNearest_eq]
    by_cases hpq : p.2 ≤ q.2
    · rw [if_pos hpq]
      rcases ih p with ⟨he, hmin⟩ | ⟨i, hi, he, hlt, hfirst, hmin⟩
      · left
        refine ⟨he, ?_⟩
        intro x hx
        rcases List.mem_cons.mp hx with rfl | hx
        · exact hpq
        · exact hmin x hx
      · right
        refine ⟨i + 1, by rw [List.length_cons]; omega, ?_, ?_, ?_, ?_⟩
        · rw [List.getElem_cons_succ]
          exact he
        · rw [List.getElem_cons_succ]
          exact hlt
        · intro j hj hji
          cases j with
          | zero =>
            rw [List.getElem_cons_succ, List.getElem_cons_zero]
            exact lt_of_lt_of_le hlt hpq
          | succ j' =>
            rw [List.getElem_cons_succ, List.getElem_cons_succ]
            exact hfirst j' (by rw [List.length_cons] at hj; omega) (by omega)
        · intro x hx
          rcases List.mem_cons.mp hx with rfl | hx
          · rw [List.getElem_cons_succ]
            exact le_trans (le_of_lt hlt) hpq
          · rw [List.getElem_cons_succ]
            exact hmin x hx
    · push_neg at hpq
      rw [if_neg (not_le.mpr hpq)]
      rcases ih q with ⟨he, hmin⟩ | ⟨i, hi, he, hlt, hfirst, hmin⟩
      · right
        refine ⟨0, by simp, ?_, ?_, ?_, ?_⟩
        · rw [List.getElem_cons_zero]
          exact he
        · rw [List.getElem_cons_zero]
          exact hpq
        · intro j hj hj0
          exact absurd hj0 (Nat.not_lt_zero j)
        · intro x hx
          rcases List.mem_cons.mp hx with rfl | hx
          · rw [List.getElem_cons_zero]
          · rw [List.getElem_cons_zero]
            exact hmin x hx
      · right
        refine ⟨i + 1, by rw [List.length_cons]; omega, ?_, ?_, ?_, ?_⟩
        · rw [List.getElem_cons_succ]
          exact he
        · rw [List.getElem_cons_succ]
          exact lt_trans hlt hpq
        · intro j hj hji
          cases j with
          | zero =>
            rw [List.getElem_cons_succ, List.getElem_cons_zero]
            exact hlt
          | succ j' =>
            rw [List.getElem_cons_succ, List.getElem_cons_succ]
            exact hfirst j' (by rw [List.length_cons] at hj; omega) (by omega)
        · intro x hx
          rcases List.mem_cons.mp hx with rfl | hx
          · rw [List.getElem_cons_succ]
            exact le_of_lt hlt
          · rw [List.getElem_cons_succ]
            exact hmin x hx

/-- C6: the nearest-station reduction returns the first-encountered
candidate of minimal distance: the returned distance is the chosen
station's distance, the chosen station occurs at an index whose distance
is a global minimum, and every strictly earlier candidate is strictly
farther.  In particular, on an exact distance tie the earlier-listed
station wins. -/
theorem nearest_first_wins (dist : Station → ℚ) (stations : List Station)
    (s : Station) (d : ℚ)
    (h : nearestStation dist stations = some (s, d)) :
    d = dist s ∧
      ∃ i, ∃ hi : i < stations.length, stations[i] = s ∧
        (∀ j, ∀ hj : j < stations.length, d ≤ dist stations[j]) ∧
        (∀ j, ∀ hj : j < stations.length, j < i → d < dist stations[j]) := by
  cases stations with
  | nil => simp [nearestStation, reduceOpt] at h
  | cons s0 rest =>
    have hfold : (rest.map (fun t => (t, dist t))).foldl selNearest
        (s0, dist s0) = (s, d) := by
      simp only [nearestStation, List.map_cons, reduceOpt] at h
      exact Option.some.inj h
    rcases foldl_selNearest_spec (rest.map (fun t => (t, dist t)))
        (s0, dist s0) with ⟨he, hmin⟩ | ⟨i, hi, he, hlt, hfirst, hmin⟩
    · rw [hfold] at he
      injection he with hs hd
      refine ⟨by rw [hd, hs], 0, by simp, by rw [List.getElem_cons_zero,
        hs], ?_, ?_⟩
      · intro j hj
        cases j with
        | zero =>
          rw [List.getElem_cons_zero]
          exact le_of_eq (by rw [hd])
        | succ j' =>
          rw [List.getElem_cons_succ]
          have hj' : j' < rest.length := by
            rw [List.length_cons] at hj
            omega
          have hmem : (rest[j'], dist rest[j']) ∈
              rest.map (fun t => (t, dist t)) :=
            List.mem_map_of_mem _ (List.getElem_mem hj')
          have hle := hmin _ hmem
          rw [hd]
          simpa using hle
      · intro j hj hj0
        exact absurd hj0 (Nat.not_lt_zero j)
    · rw [hfold] at he
      have hlen : i < rest.length := by simpa using hi
      rw [List.getElem_map] at he hlt
      simp only [List.getElem_map] at hfirst hmin
      injection he with hs hd
      refine ⟨by rw [hd, hs], i + 1, by rw [List.length_cons]; omega,
        by rw [List.getElem_cons_succ, hs], ?_, ?_⟩
      · intro j hj
        cases j with
        | zero =>
          rw [List.getElem_cons_zero, hd]
          exact le_of_lt (by simpa using hlt)
        | succ j' =>
          rw [List.getElem_cons_succ]
          have hj' : j' < rest.length := by
            rw [List.length_cons] at hj
            omega
          have hmem : (rest[j'], dist rest[j']) ∈
              rest.map (fun t => (t, dist t)) :=
            List.mem_map_of_mem _ (List.getElem_mem hj')
          have hle := hmin _ hmem
          rw [hd]
          simpa using hle
      · intro j hj hji
        cases j with
        | zero =>
          rw [List.getElem_cons_zero, hd]
          simpa using hlt
        | succ j' =>
          rw [List.getElem_cons_succ, hd]
          have hj' : j' < rest.length := by
            rw [List.length_cons] at hj
            omega
          have hb : j' < (rest.map (fun t => (t, dist t))).length := by
            simpa using hj'
          have := hfirst j' hb (by omega)
          simpa using this

/-- C6 witness: two stations at the same (tied) distance; the reduction
returns the first-listed one, with the tied distance. -/
theorem nearest_first_wins_witness :
    distOneW stAW = distOneW stBW ∧
      nearestStation distOneW [stAW, stBW] = some (stAW, 1) ∧
      (1 : ℚ) = distOneW stAW :=
  ⟨by decide, by decide,
    (nearest_first_wins distOneW [stAW, stBW] stAW 1 (by decide)).1⟩

end EDR
